import Mathlib

/-!
# H.264 → JPEG converter adapter (`main.go`)

A shallow embedding of the Go adapter around the native transcoding pipeline.

* The converter struct `H264ToJPEGConverter` keeps its source fields.  The mutex `mu` has no
  field: the body of `goFrameCallbackBridge` runs between `Lock` and the deferred `Unlock`, so
  one call of the bridge is one atomic transition here.
* Everything outside the struct lives in `World`: the trace of native calls and handler
  invocations, the log, the C allocator, the run-loop goroutines spawned by `Start` and the
  callers that are inside `Close`.
* Go `int` is 64 bits wide: the counter `frameNum` is an `Int` and `frameNum++` wraps around
  (`goInt`).  `len` of a slice is a `Nat`; the narrowing conversion `C.int(len(frame))` wraps to
  32 bits (`CInt`).
* A panic of the Go runtime (`C.GoBytes` with a negative length, the cgo pointer check) is the
  result `none`.
-/

namespace H264ToJPEG

/-! ## Data model -/

/-- Contents of a Go `[]byte` (or of a C buffer). -/
abbrev Bytes := List UInt8

/-- A value of the handler type `func([]byte, int) error`.  `call` is what the function
returns (`none` is a nil error).  `heapClosure` says whether the func value is a closure object
on the Go heap (a function literal that captures variables); a top-level function or a
literal that captures nothing is a static value outside the heap. -/
structure FrameCB where
  call : Bytes → Int → Option String
  heapClosure : Bool

/-- Go `int` arithmetic on a 64-bit platform: the result wrapped into `[-2^63, 2^63)`. -/
def goInt (x : Int) : Int :=
  (x + 9223372036854775808) % 18446744073709551616 - 9223372036854775808

/-- The struct `H264ToJPEGConverter`.  `converter` is the native handle (a C pointer, `0` is
`NULL`), `frameCB` is `none` for a nil func, `wg` is the counter of the `sync.WaitGroup`. -/
structure H264ToJPEGConverter where
  converter : Nat
  frameCB : Option FrameCB
  frameNum : Int
  wg : Nat

/-- Calls that leave the adapter: the native pipeline API, the C allocator, the handler, and the
return of `wg.Wait()`. -/
inductive Event where
  | createPipeline (result : Nat)
  | setFrameCallback (handle : Nat) (userData : Nat)
  | startPipeline (handle : Nat)
  | pushBuffer (handle : Nat) (ptr : Nat) (size : Int)
  | destroyPipeline (handle : Nat)
  | cBytes (ptr : Nat) (data : Bytes)
  | free (ptr : Nat)
  | frameCB (data : Bytes) (frameNum : Int)
  | waitReturned
  deriving DecidableEq, Repr

/-- Lines written with `log.Printf` / `log.Println`. -/
inductive LogLine where
  | callbackReceived (frameNum : Int) (len : Nat)
  | emptyFrameWarning
  | frameCallbackError (err : String)
  | pushingFrame (frameNum : Int) (len : Nat)
  | first16 (head : Bytes)
  deriving DecidableEq, Repr

/-- The converter together with its environment.  `nextPtr` is the next address the C allocator
hands out; `sleeping` counts run-loop goroutines that have not reached `C.start_pipeline` yet,
`running` those blocked inside it; `closing` counts callers of `Close` that are past
`destroy_pipeline` and not yet past `wg.Wait()`. -/
structure World where
  h : H264ToJPEGConverter
  trace : List Event
  log : List LogLine
  nextPtr : Nat
  sleeping : Nat
  running : Nat
  closing : Nat

/-! ## `goFrameCallbackBridge` -/

/-- `C.GoBytes(p, n)`: a fresh Go slice holding the first `n` bytes at `p` (`data` is the foreign
memory at the pointer); a negative `n` panics. -/
def GoBytes (data : Bytes) (size : Int) : Option Bytes :=
  if size < 0 then none else some (data.take size.toNat)

/-- `goFrameCallbackBridge(data, size, userData)` on the converter `userData` points to.
`none` is a panic (of `C.GoBytes`). -/
def goFrameCallbackBridge (data : Bytes) (size : Int) (w : World) : Option World :=
  match GoBytes data size with
  | none => none
  | some goData =>
    let w1 := { w with log := w.log ++ [LogLine.callbackReceived w.h.frameNum goData.length] }
    match w1.h.frameCB with
    | some cb =>
      if goData.length = 0 then
        some { w1 with log := w1.log ++ [LogLine.emptyFrameWarning] }
      else
        let err := cb.call goData w1.h.frameNum
        let w2 := { w1 with trace := w1.trace ++ [Event.frameCB goData w1.h.frameNum] }
        let w3 := match err with
          | some e => { w2 with log := w2.log ++ [LogLine.frameCallbackError e] }
          | none => w2
        some { w3 with h := { w3.h with frameNum := goInt (w3.h.frameNum + 1) } }
    | none => some { w1 with h := { w1.h with frameNum := goInt (w1.h.frameNum + 1) } }

/-- One callback delivery: the foreign memory at the pointer and the reported length. -/
structure Delivery where
  data : Bytes
  size : Int

/-- The native pipeline delivers the outputs one after the other (the mutex serialises them). -/
def deliverAll : List Delivery → World → Option World
  | [], w => some w
  | d :: ds, w =>
    match goFrameCallbackBridge d.data d.size w with
    | none => none
    | some w1 => deliverAll ds w1

/-- The handler invocations recorded in a trace, as (bytes, sequence number). -/
def handlerCalls : List Event → List (Bytes × Int)
  | [] => []
  | Event.frameCB data n :: es => (data, n) :: handlerCalls es
  | _ :: es => handlerCalls es

/-! ## `NewH264ToJPEGConverter` -/

/-- The cgo pointer check on the argument `unsafe.Pointer(h)` (on by default): the struct `h`
is Go memory, and the call panics when that memory holds a pointer into the Go heap.  The only
field that can is `frameCB`: a nil func and a static func value pass, a closure object on the
heap does not (`mu`, `wg` and `frameNum` hold no pointer, `converter` is a C pointer). -/
def cgoCheckPointer (frameCB : Option FrameCB) : Bool :=
  match frameCB with
  | none => true
  | some cb => !cb.heapClosure

/-- `NewH264ToJPEGConverter(frameCB)`.  `created` is what `C.create_pipeline()` returns and
`self` the address of the struct allocated by `&H264ToJPEGConverter{...}`.  The result is the
list of native calls made and the outcome: `none` for a panic (the pointer check runs before
`C.set_frame_callback` is entered), otherwise the error or the pointer with the struct
behind it. -/
def NewH264ToJPEGConverter (created : Nat) (self : Nat) (frameCB : Option FrameCB) :
    List Event × Option (Except String (Nat × H264ToJPEGConverter)) :=
  let converter := created
  if converter = 0 then
    ([Event.createPipeline created], some (Except.error "failed to create pipeline"))
  else
    let h : H264ToJPEGConverter :=
      { converter := converter, frameCB := frameCB, frameNum := 0, wg := 0 }
    if cgoCheckPointer h.frameCB then
      ([Event.createPipeline created, Event.setFrameCallback converter self],
        some (Except.ok (self, h)))
    else ([Event.createPipeline created], none)

/-- The world right after a successful construction: nothing allocated, no goroutine, nobody in
`Close`. -/
def newWorld (created : Nat) (self : Nat) (frameCB : Option FrameCB) : Option World :=
  match NewH264ToJPEGConverter created self frameCB with
  | (events, some (Except.ok (_, h))) =>
    some { h := h, trace := events, log := [], nextPtr := 1, sleeping := 0, running := 0,
           closing := 0 }
  | _ => none

/-! ## `PushFrame` -/

/-- The Go conversion `C.int(n)`: truncation to a signed 32-bit integer. -/
def CInt (n : Int) : Int :=
  (n + 2147483648) % 4294967296 - 2147483648

/-- `h.PushFrame(frame)`.  `C.CBytes` returns the next address of the allocator with a copy of
`frame` behind it; the deferred `C.free` runs when the function returns, after
`C.push_buffer`. -/
def PushFrame (frame : Bytes) (w : World) : World :=
  if frame.length = 0 then w
  else
    let cData := w.nextPtr
    let w1 := { w with nextPtr := w.nextPtr + 1, trace := w.trace ++ [Event.cBytes cData frame] }
    let w2 := { w1 with log := w1.log ++ [LogLine.pushingFrame w1.h.frameNum frame.length] }
    let w3 := if frame.length > 16 then
        { w2 with log := w2.log ++ [LogLine.first16 (frame.take 16)] }
      else w2
    let w4 := { w3 with
      trace := w3.trace ++ [Event.pushBuffer w3.h.converter cData (CInt frame.length)] }
    { w4 with trace := w4.trace ++ [Event.free cData] }

/-! ## `Start`, the run-loop goroutine, `Close` -/

/-- `h.Start()`: `h.wg.Add(1)` and one new goroutine, which first sleeps. -/
def Start (w : World) : World :=
  { w with h := { w.h with wg := w.h.wg + 1 }, sleeping := w.sleeping + 1 }

/-- A run-loop goroutine wakes up and calls `C.start_pipeline(h.converter)`, which blocks.
Not enabled (`none`) when no goroutine is sleeping. -/
def runLoopEnter (w : World) : Option World :=
  if w.sleeping = 0 then none
  else some { w with sleeping := w.sleeping - 1, running := w.running + 1,
                     trace := w.trace ++ [Event.startPipeline w.h.converter] }

/-- The native run call of one goroutine returns; the deferred `h.wg.Done()` runs.
Not enabled when no goroutine is inside `C.start_pipeline`. -/
def runLoopExit (w : World) : Option World :=
  if w.running = 0 then none
  else some { w with running := w.running - 1, h := { w.h with wg := w.h.wg - 1 } }

/-- First statement of `h.Close()`: `C.destroy_pipeline(h.converter)`. -/
def closeDestroy (w : World) : World :=
  { w with trace := w.trace ++ [Event.destroyPipeline w.h.converter], closing := w.closing + 1 }

/-- Second statement of `h.Close()`: `h.wg.Wait()` returns.  Not enabled while the counter of
the wait group is not zero (the caller stays blocked), nor when nobody is inside `Close`. -/
def closeWait (w : World) : Option World :=
  if w.closing = 0 then none
  else if w.h.wg = 0 then
    some { w with closing := w.closing - 1, trace := w.trace ++ [Event.waitReturned] }
  else none

/-- `h.Close()` run without any other step in between; `none` when `wg.Wait()` blocks. -/
def Close (w : World) : Option World :=
  closeWait (closeDestroy w)

/-- The steps of an execution: the caller's calls (`Close` in its two statements), the steps of
the run-loop goroutines, and the callbacks of the native pipeline. -/
inductive Action where
  | start
  | pushFrame (frame : Bytes)
  | closeDestroy
  | closeWait
  | runLoopEnter
  | runLoopExit
  | callback (data : Bytes) (size : Int)

/-- One step; `none` when the step is not enabled (or panics). -/
def step (w : World) : Action → Option World
  | Action.start => some (Start w)
  | Action.pushFrame frame => some (PushFrame frame w)
  | Action.closeDestroy => some (closeDestroy w)
  | Action.closeWait => closeWait w
  | Action.runLoopEnter => runLoopEnter w
  | Action.runLoopExit => runLoopExit w
  | Action.callback data size => goFrameCallbackBridge data size w

/-- A whole schedule, step by step. -/
def run : World → List Action → Option World
  | w, [] => some w
  | w, a :: as =>
    match step w a with
    | none => none
    | some w1 => run w1 as

/-- Does the event pass the handle to `push_buffer` or `start_pipeline`? -/
def usesHandle (handle : Nat) : Event → Bool
  | Event.pushBuffer h _ _ => h = handle
  | Event.startPipeline h => h = handle
  | _ => false

/-- Does the event pass the handle to `push_buffer`? -/
def pushesHandle (handle : Nat) : Event → Bool
  | Event.pushBuffer h _ _ => h = handle
  | _ => false

/-- Is the event `destroy_pipeline` on the handle? -/
def destroysHandle (handle : Nat) : Event → Bool
  | Event.destroyPipeline h => h = handle
  | _ => false

/-- Is the event the return of `wg.Wait()`, that is the return of `Close`? -/
def isWaitReturned : Event → Bool
  | Event.waitReturned => true
  | _ => false

/-- Is the event an invocation of the handler? -/
def isHandlerCall : Event → Bool
  | Event.frameCB _ _ => true
  | _ => false

/-- No event of kind `later` comes after an event of kind `first`. -/
def noneAfter (first later : Event → Bool) : List Event → Bool
  | [] => true
  | e :: es =>
    (if first e then es.all (fun e1 => !later e1) else true) && noneAfter first later es

/-- No `push_buffer` / `start_pipeline` on the handle after a `destroy_pipeline` on it. -/
def noUseAfterDestroy (handle : Nat) (es : List Event) : Bool :=
  noneAfter (destroysHandle handle) (usesHandle handle) es

/-- No `push_buffer` on the handle after a `destroy_pipeline` on it. -/
def noPushAfterDestroy (handle : Nat) (es : List Event) : Bool :=
  noneAfter (destroysHandle handle) (pushesHandle handle) es

/-- No handler invocation after `Close` has returned. -/
def noHandlerAfterReturn (es : List Event) : Bool :=
  noneAfter isWaitReturned isHandlerCall es

/-- How often `destroy_pipeline` was called on the handle. -/
def destroyCount (handle : Nat) (es : List Event) : Nat :=
  es.countP (destroysHandle handle)

/-- How often `wg.Wait()` has returned. -/
def waitReturns (es : List Event) : Nat :=
  es.countP isWaitReturned

/-- The steps that are not a call of the caller: the return of `wg.Wait()` inside a `Close`
already begun, the steps of the run-loop goroutines, a callback. -/
def afterClose : Action → Bool
  | Action.closeWait => true
  | Action.runLoopEnter => true
  | Action.runLoopExit => true
  | Action.callback _ _ => true
  | _ => false

/-- The caller's precondition on a schedule: once `Close` has begun, the caller issues no
`Start`, no `PushFrame` and no second `Close`. -/
def closedLast : List Action → Bool
  | [] => true
  | Action.closeDestroy :: as => as.all afterClose
  | _ :: as => closedLast as

/-- Modelled from the spec: the native pipeline library (`rtsp_to_jpeg`, not among the sources)
decides when the bridge is called.  The spec has `Close` wait for the run loop "ensuring the
native run loop has returned and will invoke no further callbacks": the library calls back
only while a `start_pipeline` call is in progress.  The predicate says that every callback of
the schedule is delivered in such a state. -/
def callbacksWithinRun : World → List Action → Bool
  | _, [] => true
  | w, a :: as =>
    (match a with
      | Action.callback _ _ => decide (0 < w.running)
      | _ => true) &&
    (match step w a with
      | some w1 => callbacksWithinRun w1 as
      | none => true)

/-- Number of `Start` calls in a schedule. -/
def startCalls : List Action → Nat
  | [] => 0
  | Action.start :: as => startCalls as + 1
  | _ :: as => startCalls as

/-- Number of run-loop goroutines that have exited in a schedule. -/
def loopExits : List Action → Nat
  | [] => 0
  | Action.runLoopExit :: as => loopExits as + 1
  | _ :: as => loopExits as

/-! ## `readH264Frames` -/

/-- A Go `string` (file names, paths). -/
abbrev GoString := List Char

/-- `strings.HasPrefix(s, p)`. -/
def HasPrefix (s p : GoString) : Bool := p.isPrefixOf s

/-- `strings.HasSuffix(s, p)`. -/
def HasSuffix (s p : GoString) : Bool := p.isSuffixOf s

/-- `strings.TrimPrefix(s, p)`. -/
def TrimPrefix (s p : GoString) : GoString :=
  if HasPrefix s p then s.drop p.length else s

/-- `strings.TrimSuffix(s, p)`. -/
def TrimSuffix (s p : GoString) : GoString :=
  if HasSuffix s p then s.take (s.length - p.length) else s

/-- The two errors of package `strconv`: `ErrSyntax` and `ErrRange`. -/
inductive NumError where
  | errSyntax
  | errRange
  deriving DecidableEq, Repr

/-- The digit loop of `strconv.ParseUint(s, 10, 64)`: a byte that is not a decimal digit is a
syntax error with value 0; an overflow of `uint64` returns at once with the largest `uint64`
and a range error. -/
def parseUintLoop : GoString → Nat → Nat × Option NumError
  | [], n => (n, none)
  | c :: cs, n =>
    if '0' ≤ c ∧ c ≤ '9' then
      let d := c.toNat - '0'.toNat
      if n ≥ 18446744073709551615 / 10 + 1 then (18446744073709551615, some NumError.errRange)
      else
        let n1 := n * 10 + d
        if n1 > 18446744073709551615 then (18446744073709551615, some NumError.errRange)
        else parseUintLoop cs n1
    else (0, some NumError.errSyntax)

/-- `strconv.ParseUint(s, 10, 64)`. -/
def ParseUint (s : GoString) : Nat × Option NumError :=
  if s = [] then (0, some NumError.errSyntax) else parseUintLoop s 0

/-- `strconv.ParseInt(s, 10, 0)` with a 64-bit `int`: sign, magnitude, then the range check
that returns the nearest bound together with a range error. -/
def ParseInt (s : GoString) : Int × Option NumError :=
  match s with
  | [] => (0, some NumError.errSyntax)
  | c :: cs =>
    let neg := c = '-'
    let digits := if c = '+' ∨ c = '-' then cs else c :: cs
    match ParseUint digits with
    | (_, some NumError.errSyntax) => (0, some NumError.errSyntax)
    | (un, _) =>
      if ¬ neg ∧ un ≥ 9223372036854775808 then
        (9223372036854775807, some NumError.errRange)
      else if neg ∧ un > 9223372036854775808 then
        (-9223372036854775808, some NumError.errRange)
      else (if neg then -(un : Int) else (un : Int), none)

/-- The fast path of `strconv.Atoi` (64-bit `int`, fewer than 19 bytes): the digits after the
sign, `none` on a byte that is not a digit. -/
def atoiFast : GoString → Int → Option Int
  | [], n => some n
  | c :: cs, n =>
    if '0' ≤ c ∧ c ≤ '9' then atoiFast cs (n * 10 + ((c.toNat - '0'.toNat : Nat) : Int))
    else none

/-- `strconv.Atoi(s)`: value and error. -/
def Atoi (s : GoString) : Int × Option NumError :=
  if 0 < s.length ∧ s.length < 19 then
    match s with
    | [] => (0, some NumError.errSyntax)
    | c :: cs =>
      let digits := if c = '-' ∨ c = '+' then cs else c :: cs
      if digits.length < 1 then (0, some NumError.errSyntax)
      else
        match atoiFast digits 0 with
        | none => (0, some NumError.errSyntax)
        | some n => (if c = '-' then -n else n, none)
  else ParseInt s

/-- The file-system calls of `readH264Frames`: `ioutil.ReadDir` (the names of the entries;
`none` is an error), `ioutil.ReadFile` (`none` is an error) and `filepath.Join`. -/
structure FileSystem where
  readDir : GoString → Option (List GoString)
  readFile : GoString → Option Bytes
  join : GoString → GoString → GoString

/-- The two `fmt.Errorf` results of `readH264Frames`. -/
inductive ReadError where
  | readDirectory
  | readFile (path : GoString)
  deriving DecidableEq, Repr

/-- The filter of the first loop: `frame_` in front and `.h264` at the end. -/
def isFrameFile (name : GoString) : Bool :=
  HasPrefix name "frame_".toList && HasSuffix name ".h264".toList

/-- The number the comparison of `sort.Slice` computes for a name; the error of `Atoi` is
dropped (`num, _ := strconv.Atoi(...)`). -/
def frameKey (name : GoString) : Int :=
  (Atoi (TrimSuffix (TrimPrefix name "frame_".toList) ".h264".toList)).1

/-- The `less` function handed to `sort.Slice`. -/
def frameLess (a b : GoString) : Bool :=
  decide (frameKey a < frameKey b)

/-- The last loop of `readH264Frames`: read the files in order, stop at the first error. -/
def readAll (fs : FileSystem) (folder : GoString) : List GoString → Except ReadError (List Bytes)
  | [] => Except.ok []
  | filename :: rest =>
    let path := fs.join folder filename
    match fs.readFile path with
    | none => Except.error (ReadError.readFile path)
    | some data =>
      match readAll fs folder rest with
      | Except.error e => Except.error e
      | Except.ok frames => Except.ok (data :: frames)

/-- The slice `frameFiles` after `sort.Slice`; `sortSlice` stands for `sort.Slice`. -/
def sortedFrameFiles (sortSlice : (GoString → GoString → Bool) → List GoString → List GoString)
    (files : List GoString) : List GoString :=
  sortSlice frameLess (files.filter isFrameFile)

/-- `readH264Frames(folder)`. -/
def readH264Frames (sortSlice : (GoString → GoString → Bool) → List GoString → List GoString)
    (fs : FileSystem) (folder : GoString) : Except ReadError (List Bytes) :=
  match fs.readDir folder with
  | none => Except.error ReadError.readDirectory
  | some files => readAll fs folder (sortedFrameFiles sortSlice files)

/-- One backward pass of the insertion sort of package `sort`: `x` moves towards the front
while `less x y` holds for the element `y` before it.  The sorted part is kept reversed. -/
def insertBack {α : Type} (less : α → α → Bool) (x : α) : List α → List α
  | [] => [x]
  | y :: ys => if less x y then y :: insertBack less x ys else x :: y :: ys

/-- The insertion sort `sort.Slice` runs on a slice of at most 12 elements. -/
def insertionSort {α : Type} (less : α → α → Bool) (l : List α) : List α :=
  (l.foldl (fun sorted x => insertBack less x sorted) []).reverse

/-- The key as the claim words it: the integer parsed from the text between `frame_` and
`.h264`, and 0 when the text does not parse (when `Atoi` reports an error). -/
def claimedKey (name : GoString) : Int :=
  match Atoi (TrimSuffix (TrimPrefix name "frame_".toList) ".h264".toList) with
  | (n, none) => n
  | (_, some _) => 0

/-- The directory `./h264/` with two frame files, the second with a 20-digit number;
`filepath.Join` cleans the folder to `h264`. -/
def exampleFS : FileSystem where
  readDir := fun _ =>
    some ["frame_5.h264".toList, "frame_99999999999999999999.h264".toList]
  readFile := fun path => if path = "h264/frame_5.h264".toList then some [5] else some [9]
  join := fun _ name => "h264/".toList ++ name

/-- A converter right after a successful construction: handle 7, struct at address 100. -/
def exampleWorld (frameCB : Option FrameCB) : World where
  h := { converter := 7, frameCB := frameCB, frameNum := 0, wg := 0 }
  trace := [Event.createPipeline 7, Event.setFrameCallback 7 100]
  log := []
  nextPtr := 1
  sleeping := 0
  running := 0
  closing := 0

/-- A handler that accepts every frame (a function literal that captures nothing). -/
def acceptAll : FrameCB where
  call := fun _ _ => none
  heapClosure := false

/-- A handler that rejects every frame (a function literal that captures nothing). -/
def rejectAll : FrameCB where
  call := fun _ _ => some "suspiciously small JPEG frame"
  heapClosure := false

/-- A handler that is a closure over a local variable of its creator, for instance
`func(data []byte, n int) error { frames = append(frames, data); return nil }`. -/
def capturingHandler : FrameCB where
  call := fun _ _ => none
  heapClosure := true

/-- The largest Go `int`. -/
def maxInt : Int := 9223372036854775807

/-- A converter with a handler whose counter has reached the largest `int`. -/
def lastNumberWorld : World where
  h := { converter := 7, frameCB := some acceptAll, frameNum := maxInt, wg := 0 }
  trace := [Event.createPipeline 7, Event.setFrameCallback 7 100]
  log := []
  nextPtr := 1
  sleeping := 0
  running := 0
  closing := 0

/-- A frame of 2^31 zero bytes. -/
def hugeFrame : Bytes := List.replicate 2147483648 0

/-- The order of calls in `main`, with the steps of the run loop in between. -/
def mainSchedule : List Action :=
  [Action.start, Action.runLoopEnter, Action.pushFrame [1], Action.pushFrame [2, 3],
   Action.closeDestroy, Action.runLoopExit, Action.closeWait]

/-- A directory listed in name order, in which the numbers are out of order. -/
def orderFS : FileSystem where
  readDir := fun _ =>
    some ["frame_10.h264".toList, "frame_2.h264".toList, "frame_30.h264".toList,
          "notes.txt".toList]
  readFile := fun path =>
    if path = "in/frame_10.h264".toList then some [10]
    else if path = "in/frame_2.h264".toList then some [2]
    else if path = "in/frame_30.h264".toList then some [30]
    else some [0]
  join := fun folder name => folder ++ '/' :: name

/-- The payloads of the deliveries whose reported length is not zero, in arrival order. -/
def payloads (ds : List Delivery) : List Bytes :=
  (ds.filter (fun d => d.size ≠ 0)).map (fun d => d.data.take d.size.toNat)

/-! ## Lemmas on the bridge -/

theorem goInt_of_range (x : Int) (h1 : -9223372036854775808 ≤ x)
    (h2 : x < 9223372036854775808) : goInt x = x := by
  unfold goInt
  omega

theorem goInt_succ (x : Int) : goInt (goInt x + 1) = goInt (x + 1) := by
  unfold goInt
  omega

theorem handlerCalls_append (es fs : List Event) :
    handlerCalls (es ++ fs) = handlerCalls es ++ handlerCalls fs := by
  induction es with
  | nil => rfl
  | cons e es ih => cases e <;> simp [handlerCalls, ih]

theorem bridge_zero_length (cb : FrameCB) (data : Bytes) (w : World)
    (hcb : w.h.frameCB = some cb) :
    ∃ w1, goFrameCallbackBridge data 0 w = some w1 ∧ w1.h = w.h ∧ w1.trace = w.trace ∧
      w1.nextPtr = w.nextPtr ∧ w1.sleeping = w.sleeping ∧ w1.running = w.running ∧
      w1.closing = w.closing := by
  simp [goFrameCallbackBridge, GoBytes, hcb]

theorem take_length_of_valid (data : Bytes) (size : Int) (h0 : 0 ≤ size)
    (hlen : size ≤ data.length) : ((data.take size.toNat).length : Int) = size := by
  rw [List.length_take]
  omega

theorem bridge_nonempty (cb : FrameCB) (data : Bytes) (size : Int) (w : World)
    (hcb : w.h.frameCB = some cb) (hpos : 0 < size) (hlen : size ≤ data.length) :
    ∃ w1, goFrameCallbackBridge data size w = some w1 ∧
      w1.h = { w.h with frameNum := goInt (w.h.frameNum + 1) } ∧
      w1.trace = w.trace ++ [Event.frameCB (data.take size.toNat) w.h.frameNum] ∧
      w1.nextPtr = w.nextPtr ∧ w1.sleeping = w.sleeping ∧ w1.running = w.running ∧
      w1.closing = w.closing := by
  have hdata : data ≠ [] := by
    intro h
    rw [h] at hlen
    simp at hlen
    omega
  have hneg : ¬ size < 0 := by omega
  have hnonpos : ¬ size ≤ 0 := by omega
  cases herr : cb.call (data.take size.toNat) w.h.frameNum <;>
    simp [goFrameCallbackBridge, GoBytes, hcb, hdata, hneg, hnonpos, herr]

theorem deliverAll_spec (cb : FrameCB) :
    ∀ (ds : List Delivery) (w : World) (n : Nat), w.h.frameCB = some cb →
      w.h.frameNum = goInt n →
      (∀ d ∈ ds, 0 ≤ d.size ∧ d.size ≤ d.data.length) →
      ∃ w1, deliverAll ds w = some w1 ∧ w1.h.frameCB = some cb ∧
        w1.h.frameNum = goInt ((n + (payloads ds).length : Nat) : Int) ∧
        handlerCalls w1.trace = handlerCalls w.trace ++
          ((payloads ds).enumFrom n).map (fun p => (p.2, goInt (p.1 : Int))) := by
  intro ds
  induction ds with
  | nil =>
    intro w n hcb hn _
    exact ⟨w, rfl, hcb, by simpa [payloads] using hn, by simp [payloads]⟩
  | cons d ds ih =>
    intro w n hcb hn hvalid
    have hd := hvalid d (List.mem_cons_self _ _)
    have hrest : ∀ e ∈ ds, 0 ≤ e.size ∧ e.size ≤ e.data.length :=
      fun e he => hvalid e (List.mem_cons_of_mem _ he)
    by_cases hz : d.size = 0
    · obtain ⟨w1, hb, hh1, htr1, -⟩ := bridge_zero_length cb d.data w hcb
      have hcb1 : w1.h.frameCB = some cb := by rw [hh1]; exact hcb
      have hn1 : w1.h.frameNum = goInt (n : Int) := by rw [hh1]; exact hn
      obtain ⟨w2, hrun, hcb2, hnum2, hcalls2⟩ := ih w1 n hcb1 hn1 hrest
      refine ⟨w2, ?_, hcb2, ?_, ?_⟩
      · simp [deliverAll, hz, hb, hrun]
      · simpa [payloads, hz] using hnum2
      · rw [hcalls2, htr1]
        simp [payloads, hz]
    · have hpos : 0 < d.size := lt_of_le_of_ne hd.1 (Ne.symm hz)
      obtain ⟨w1, hb, hh1, htr1, -⟩ := bridge_nonempty cb d.data d.size w hcb hpos hd.2
      have hcb1 : w1.h.frameCB = some cb := by rw [hh1]; exact hcb
      have hn1 : w1.h.frameNum = goInt ((n + 1 : Nat) : Int) := by
        rw [hh1]
        simp only [hn, goInt_succ]
        rfl
      obtain ⟨w2, hrun, hcb2, hnum2, hcalls2⟩ := ih w1 (n + 1) hcb1 hn1 hrest
      refine ⟨w2, ?_, hcb2, ?_, ?_⟩
      · simp [deliverAll, hb, hrun]
      · rw [hnum2]
        congr 1
        simp [payloads, hz]
        omega
      · rw [hcalls2, htr1, handlerCalls_append]
        simp [payloads, hz, handlerCalls, hn, List.enumFrom_cons]

theorem lengths_of_numbered (f : Nat → Int) :
    ∀ (l : List Delivery) (k : Nat), (∀ d ∈ l, 0 ≤ d.size ∧ d.size ≤ d.data.length) →
      List.map ((fun c : Bytes × Int => (c.1.length : Int)) ∘
          fun p : Nat × Bytes => (p.2, f p.1)) (List.enumFrom k (payloads l)) =
        (l.filter (fun d => d.size ≠ 0)).map Delivery.size := by
  intro l
  induction l with
  | nil => intro k _; simp [payloads]
  | cons d l ih =>
    intro k hv
    have hd := hv d (List.mem_cons_self _ _)
    have hl := fun j => ih j (fun e he => hv e (List.mem_cons_of_mem _ he))
    by_cases hz : d.size = 0
    · have := hl k
      simpa [payloads, hz] using this
    · have h1 := hl (k + 1)
      have h2 := take_length_of_valid d.data d.size hd.1 hd.2
      simp only [payloads] at h1 ⊢
      simp only [List.filter_cons, hz, ne_eq, not_false_eq_true, decide_True, if_true,
        List.map_cons, List.enumFrom_cons, Function.comp]
      rw [← h1, h2]

theorem numbers_of_numbered :
    ∀ (l : List Bytes) (k : Nat),
      List.map (Prod.snd ∘ fun p : Nat × Bytes => (p.2, (p.1 : Int))) (List.enumFrom k l) =
        (List.range' k l.length).map Int.ofNat := by
  intro l
  induction l with
  | nil => intro k; simp
  | cons b l ih =>
    intro k
    simp [List.enumFrom_cons, List.range'_succ, ih (k + 1)]

/-! ## The callback bridge: sequence numbers -/

/-- C1: from a fresh converter (`frameNum = 0`, no handler invocation so far) with a handler,
any sequence of well-formed deliveries (a non-negative reported length, that many bytes at the
pointer) is processed to the end, and the handler invocations are exactly the payloads of
non-zero length in arrival order, each slice of exactly the reported length, the i-th with
the sequence number i as a Go `int`; for up to 2^63 such payloads this number is i itself,
the numbers are `0, ..., N-1`, and the counter ends at `N` as a Go `int`. -/
theorem handler_sequence_of_deliveries (cb : FrameCB) (w0 : World) (ds : List Delivery)
    (hcb : w0.h.frameCB = some cb) (hnum : w0.h.frameNum = 0)
    (hfresh : handlerCalls w0.trace = [])
    (hvalid : ∀ d ∈ ds, 0 ≤ d.size ∧ d.size ≤ d.data.length) :
    ∃ w, deliverAll ds w0 = some w ∧
      handlerCalls w.trace = (payloads ds).enum.map (fun p => (p.2, goInt (p.1 : Int))) ∧
      (handlerCalls w.trace).map (fun c => (c.1.length : Int)) =
        (ds.filter (fun d => d.size ≠ 0)).map Delivery.size ∧
      w.h.frameNum = goInt ((payloads ds).length : Int) ∧
      ((payloads ds).length ≤ 9223372036854775808 →
        handlerCalls w.trace = (payloads ds).enum.map (fun p => (p.2, (p.1 : Int))) ∧
        (handlerCalls w.trace).map Prod.snd =
          (List.range (payloads ds).length).map Int.ofNat) := by
  have h0 : w0.h.frameNum = goInt ((0 : Nat) : Int) := by rw [hnum]; rfl
  obtain ⟨w, hrun, -, hn, hcalls⟩ := deliverAll_spec cb ds w0 0 hcb h0 hvalid
  rw [hfresh, List.nil_append] at hcalls
  have hwrapped : handlerCalls w.trace =
      (payloads ds).enum.map (fun p => (p.2, goInt (p.1 : Int))) := by
    simpa [List.enum] using hcalls
  have hexact : (payloads ds).length ≤ 9223372036854775808 →
      handlerCalls w.trace = (payloads ds).enum.map (fun p => (p.2, (p.1 : Int))) := by
    intro hN
    rw [hwrapped]
    refine List.map_congr_left ?_
    intro p hp
    have hlt := List.fst_lt_of_mem_enum hp
    rw [goInt_of_range (p.1 : Int) (by omega) (by omega)]
  refine ⟨w, hrun, hwrapped, ?_, by simpa using hn, ?_⟩
  · rw [hcalls]
    simp only [List.map_map]
    exact lengths_of_numbered (fun i => goInt (i : Int)) ds 0 hvalid
  · intro hN
    refine ⟨hexact hN, ?_⟩
    rw [hexact hN, List.enum]
    simp only [List.map_map]
    rw [numbers_of_numbered, List.range_eq_range']

/-- C1, the concrete scenario: one zero-length output between two valid ones gives exactly two
handler invocations, numbered 0 and 1. -/
theorem handler_sequence_witness :
    newWorld 7 100 (some acceptAll) = some (exampleWorld (some acceptAll)) ∧
    ∃ w, deliverAll [⟨[1, 2, 3], 3⟩, ⟨[9], 0⟩, ⟨[4, 5], 2⟩] (exampleWorld (some acceptAll)) =
        some w ∧
      handlerCalls w.trace = [([1, 2, 3], 0), ([4, 5], 1)] := by
  refine ⟨rfl, ?_⟩
  obtain ⟨w, h1, -, -, -, h2⟩ := handler_sequence_of_deliveries acceptAll
    (exampleWorld (some acceptAll)) [⟨[1, 2, 3], 3⟩, ⟨[9], 0⟩, ⟨[4, 5], 2⟩] rfl rfl rfl
    (by decide)
  have h3 := (h2 (by simp [payloads])).1
  exact ⟨w, h1, by simpa [payloads, List.enum, List.enumFrom] using h3⟩

/-- C2, as the claim words it, fails without a handler: a zero-length callback on a converter
built with a nil handler moves `frameNum` from 0 to 1. -/
theorem zero_length_nil_handler_counts :
    (exampleWorld none).h.frameNum = 0 ∧
    (goFrameCallbackBridge [] 0 (exampleWorld none)).map (fun w => w.h.frameNum) = some 1 := by
  constructor <;> rfl

/-- C2, amended: a callback with reported length zero returns, never invokes a handler (the
trace is unchanged), and with a handler set it leaves the converter, `frameNum` included, as it
was. -/
theorem zero_length_dropped (w : World) (data : Bytes) :
    ∃ w1, goFrameCallbackBridge data 0 w = some w1 ∧ w1.trace = w.trace ∧
      (w.h.frameCB.isSome → w1.h = w.h) := by
  cases hcb : w.h.frameCB with
  | none => simp [goFrameCallbackBridge, GoBytes, hcb]
  | some cb =>
    obtain ⟨w1, h1, h2, h3, -⟩ := bridge_zero_length cb data w hcb
    exact ⟨w1, h1, h3, fun _ => h2⟩

/-- C2, amended, at a converter with a handler and `frameNum = 0`. -/
theorem zero_length_dropped_witness :
    ∃ w1, goFrameCallbackBridge [1] 0 (exampleWorld (some acceptAll)) = some w1 ∧
      w1.trace = (exampleWorld (some acceptAll)).trace ∧ w1.h.frameNum = 0 := by
  obtain ⟨w1, h1, h2, h3⟩ := zero_length_dropped (exampleWorld (some acceptAll)) [1]
  exact ⟨w1, h1, h2, by rw [h3 rfl]; rfl⟩

/-- C3: `PushFrame` with an empty buffer changes nothing: no native call, no allocation, no log
line, and the converter is as it was. -/
theorem pushFrame_empty (w : World) : PushFrame [] w = w := by
  simp [PushFrame]

/-- C4, as the claim words it, fails at the largest `int`: with `frameNum = 2^63 - 1` a
non-empty frame makes `frameNum++` wrap to `-2^63`, which is not one more. -/
theorem counter_wraps_at_max_int :
    lastNumberWorld.h.frameNum = 9223372036854775807 ∧
    (goFrameCallbackBridge [1] 1 lastNumberWorld).map (fun w => w.h.frameNum) =
      some (-9223372036854775808) := by
  constructor <;> rfl

/-- C4, amended: with a handler, a counter that is a Go `int` below the largest one
(`2^63 - 1`) and a non-empty frame the bridge returns, `frameNum` grows by exactly one whatever the handler returned, the handler got
the frame with the old number, and the next non-empty delivery is handed over with the next
number. -/
theorem bridge_continues_after_handler (cb : FrameCB) (w : World) (data : Bytes) (size : Int)
    (hcb : w.h.frameCB = some cb) (hpos : 0 < size) (hlen : size ≤ data.length)
    (hlo : -9223372036854775808 ≤ w.h.frameNum) (hhi : w.h.frameNum < 9223372036854775807) :
    ∃ w1, goFrameCallbackBridge data size w = some w1 ∧
      w1.h.frameNum = w.h.frameNum + 1 ∧
      w1.trace = w.trace ++ [Event.frameCB (data.take size.toNat) w.h.frameNum] ∧
      ∀ (data2 : Bytes) (size2 : Int), 0 < size2 → size2 ≤ data2.length →
        ∃ w2, goFrameCallbackBridge data2 size2 w1 = some w2 ∧
          w2.h.frameNum = goInt (w.h.frameNum + 2) ∧
          w2.trace = w1.trace ++ [Event.frameCB (data2.take size2.toNat) (w.h.frameNum + 1)] := by
  obtain ⟨w1, h1, hh1, htr1, -⟩ := bridge_nonempty cb data size w hcb hpos hlen
  have hcb1 : w1.h.frameCB = some cb := by rw [hh1]; exact hcb
  have hn1 : w1.h.frameNum = w.h.frameNum + 1 := by
    rw [hh1]
    exact goInt_of_range (w.h.frameNum + 1) (by omega) (by omega)
  refine ⟨w1, h1, hn1, htr1, ?_⟩
  intro data2 size2 hpos2 hlen2
  obtain ⟨w2, h2, hh2, htr2, -⟩ := bridge_nonempty cb data2 size2 w1 hcb1 hpos2 hlen2
  refine ⟨w2, h2, ?_, ?_⟩
  · rw [hh2]
    simp only [hn1]
    congr 1
    omega
  · rw [htr2, hn1]

/-- C4, amended, at a handler that reports an error for every frame: two frames, numbers 0
and 1. -/
theorem bridge_continues_witness :
    rejectAll.call [1, 2] 0 = some "suspiciously small JPEG frame" ∧
    ∃ w1 w2, goFrameCallbackBridge [1, 2] 2 (exampleWorld (some rejectAll)) = some w1 ∧
      w1.h.frameNum = 1 ∧
      goFrameCallbackBridge [3] 1 w1 = some w2 ∧ w2.h.frameNum = 2 ∧
      handlerCalls w2.trace = [([1, 2], 0), ([3], 1)] := by
  refine ⟨rfl, ?_⟩
  obtain ⟨w1, h1, hn1, htr1, hnext⟩ := bridge_continues_after_handler rejectAll
    (exampleWorld (some rejectAll)) [1, 2] 2 rfl (by decide) (by decide) (by decide) (by decide)
  obtain ⟨w2, h2, hn2, htr2⟩ := hnext [3] 1 (by decide) (by decide)
  refine ⟨w1, w2, h1, by simpa [exampleWorld] using hn1, h2, ?_, ?_⟩
  · rw [hn2]
    rfl
  · rw [htr2, htr1]
    simp [exampleWorld, handlerCalls]

theorem hugeFrame_length : hugeFrame.length = 2147483648 := by
  unfold hugeFrame
  exact List.length_replicate _ _

theorem pushFrame_trace (w : World) (frame : Bytes) (hne : frame ≠ []) :
    (PushFrame frame w).trace = w.trace ++
      [Event.cBytes w.nextPtr frame,
       Event.pushBuffer w.h.converter w.nextPtr (CInt frame.length), Event.free w.nextPtr] := by
  have hl : frame.length ≠ 0 := by
    intro h
    exact hne (List.length_eq_zero.mp h)
  unfold PushFrame
  rw [if_neg hl]
  by_cases h16 : frame.length > 16 <;> simp [h16]

/-- C5, as the claim words it, fails for a buffer of 2^31 bytes: the one `push_buffer` call
gets the length `C.int(len(frame))`, here -2147483648, and not `len(frame)` = 2147483648. -/
theorem pushFrame_length_truncated :
    (PushFrame hugeFrame (exampleWorld none)).trace.filter (usesHandle 7) =
      [Event.pushBuffer 7 1 (-2147483648)] ∧
    (hugeFrame.length : Int) = 2147483648 := by
  have hne : hugeFrame ≠ [] := by
    intro h
    have hl := hugeFrame_length
    rw [h] at hl
    exact absurd hl (by decide)
  have hc : CInt ((2147483648 : Nat) : Int) = -2147483648 := by decide
  refine ⟨?_, by rw [hugeFrame_length]; rfl⟩
  rw [pushFrame_trace _ _ hne, hugeFrame_length, hc]
  rfl

/-- C5, amended: for a non-empty buffer of fewer than 2^31 bytes `PushFrame` makes exactly three
calls, in this order: `C.CBytes` returning a new address with a copy of the buffer,
`push_buffer` on the converter's handle with that address and the length of the buffer, and
`free` of that address; the converter (so `frameNum`) is unchanged. -/
theorem pushFrame_nonempty (w : World) (frame : Bytes) (hne : frame ≠ [])
    (hlen : frame.length < 2147483648) :
    (PushFrame frame w).trace = w.trace ++
      [Event.cBytes w.nextPtr frame, Event.pushBuffer w.h.converter w.nextPtr frame.length,
       Event.free w.nextPtr] ∧
    (PushFrame frame w).h = w.h ∧ (PushFrame frame w).nextPtr = w.nextPtr + 1 ∧
    (PushFrame frame w).sleeping = w.sleeping ∧ (PushFrame frame w).running = w.running ∧
    (PushFrame frame w).closing = w.closing := by
  have hc : CInt (frame.length : Int) = frame.length := by
    unfold CInt
    omega
  have hl : frame.length ≠ 0 := by
    intro h
    exact hne (List.length_eq_zero.mp h)
  unfold PushFrame
  rw [if_neg hl]
  by_cases h16 : frame.length > 16 <;> simp [h16, hc]

/-- C5, amended, at a three-byte frame. -/
theorem pushFrame_nonempty_witness :
    (PushFrame [1, 2, 3] (exampleWorld none)).trace =
      [Event.createPipeline 7, Event.setFrameCallback 7 100,
       Event.cBytes 1 [1, 2, 3], Event.pushBuffer 7 1 3, Event.free 1] ∧
    (PushFrame [1, 2, 3] (exampleWorld none)).h.frameNum = 0 := by
  have h := pushFrame_nonempty (exampleWorld none) [1, 2, 3] (by decide) (by decide)
  refine ⟨?_, ?_⟩
  · rw [h.1]
    rfl
  · rw [h.2.1]
    rfl

theorem constructor_outcomes (created self : Nat) (frameCB : Option FrameCB) :
    (created = 0 →
      NewH264ToJPEGConverter created self frameCB =
        ([Event.createPipeline 0], some (Except.error "failed to create pipeline"))) ∧
    (created ≠ 0 → cgoCheckPointer frameCB = true →
      NewH264ToJPEGConverter created self frameCB =
        ([Event.createPipeline created, Event.setFrameCallback created self],
         some (Except.ok
           (self, { converter := created, frameCB := frameCB, frameNum := 0, wg := 0 })))) ∧
    (created ≠ 0 → cgoCheckPointer frameCB = false →
      NewH264ToJPEGConverter created self frameCB = ([Event.createPipeline created], none)) := by
  refine ⟨?_, ?_, ?_⟩
  · intro h
    subst h
    simp [NewH264ToJPEGConverter]
  · intro h hc
    simp [NewH264ToJPEGConverter, h, hc]
  · intro h hc
    simp [NewH264ToJPEGConverter, h, hc]

/-- C6: with a non-null handle and a handler that is a closure on the Go heap the constructor
neither returns an error nor a converter: it panics in the pointer check after
`create_pipeline`, `set_frame_callback` is never called, and no converter exists. -/
theorem constructor_panics_on_closure :
    NewH264ToJPEGConverter 7 100 (some capturingHandler) = ([Event.createPipeline 7], none) ∧
    newWorld 7 100 (some capturingHandler) = none := by
  constructor <;> rfl

/-! ## Lifecycle: what every step does to the handle, the trace and the counters -/

theorem bridge_effect (data : Bytes) (size : Int) (w w1 : World)
    (hb : goFrameCallbackBridge data size w = some w1) :
    w1.h.converter = w.h.converter ∧ w1.h.wg = w.h.wg ∧ w1.sleeping = w.sleeping ∧
    w1.running = w.running ∧ w1.closing = w.closing ∧
    (w1.trace = w.trace ∨ ∃ d n, w1.trace = w.trace ++ [Event.frameCB d n]) := by
  unfold goFrameCallbackBridge at hb
  cases hg : GoBytes data size with
  | none => simp [hg] at hb
  | some goData =>
    simp only [hg] at hb
    cases hcb : w.h.frameCB with
    | none =>
      simp only [hcb, Option.some.injEq] at hb
      subst hb
      simp
    | some cb =>
      simp only [hcb] at hb
      by_cases hz : goData.length = 0
      · simp only [hz, if_true, Option.some.injEq] at hb
        subst hb
        simp
      · simp only [hz, if_false, Option.some.injEq] at hb
        subst hb
        cases cb.call goData w.h.frameNum <;> simp

theorem pushFrame_effect (frame : Bytes) (w : World) :
    (PushFrame frame w).h = w.h ∧ (PushFrame frame w).sleeping = w.sleeping ∧
    (PushFrame frame w).running = w.running ∧ (PushFrame frame w).closing = w.closing ∧
    ((PushFrame frame w).trace = w.trace ∨
      (PushFrame frame w).trace = w.trace ++
        [Event.cBytes w.nextPtr frame,
         Event.pushBuffer w.h.converter w.nextPtr (CInt frame.length), Event.free w.nextPtr]) := by
  by_cases hl : frame.length = 0
  · simp [PushFrame, hl]
  · unfold PushFrame
    rw [if_neg hl]
    by_cases h16 : frame.length > 16 <;> simp [h16]

theorem run_cons (w w1 : World) (a : Action) (as : List Action)
    (hr : run w (a :: as) = some w1) : ∃ w2, step w a = some w2 ∧ run w2 as = some w1 := by
  unfold run at hr
  cases hs : step w a with
  | none => simp [hs] at hr
  | some w2 => exact ⟨w2, rfl, by simpa [hs] using hr⟩

theorem step_counters (w w1 : World) (a : Action) (hs : step w a = some w1)
    (hwg : w.h.wg = w.sleeping + w.running) :
    w1.h.converter = w.h.converter ∧ w1.h.wg = w1.sleeping + w1.running ∧
    w1.h.wg + loopExits [a] = w.h.wg + startCalls [a] ∧
    destroyCount w.h.converter w1.trace + waitReturns w.trace + w.closing =
      destroyCount w.h.converter w.trace + waitReturns w1.trace + w1.closing := by
  cases a with
  | start =>
    simp only [step, Option.some.injEq] at hs
    subst hs
    simp [Start, loopExits, startCalls, hwg]
    omega
  | pushFrame frame =>
    simp only [step, Option.some.injEq] at hs
    subst hs
    obtain ⟨h1, h2, h3, h4, h5⟩ := pushFrame_effect frame w
    rw [h1, h2, h3, h4]
    refine ⟨rfl, hwg, by simp [loopExits, startCalls], ?_⟩
    rcases h5 with h5 | h5 <;>
      simp [h5, destroyCount, waitReturns, List.countP_append, List.countP_cons, destroysHandle,
        isWaitReturned]
  | closeDestroy =>
    simp only [step, Option.some.injEq] at hs
    subst hs
    simp [closeDestroy, loopExits, startCalls, hwg, destroyCount, waitReturns,
      List.countP_append, List.countP_cons, destroysHandle, isWaitReturned]
    omega
  | closeWait =>
    simp only [step, closeWait] at hs
    by_cases hc : w.closing = 0
    · simp [hc] at hs
    · by_cases hz : w.h.wg = 0
      · simp only [hc, hz, if_true, if_false, Option.some.injEq] at hs
        subst hs
        simp [loopExits, startCalls, destroyCount, waitReturns,
          List.countP_append, List.countP_cons, destroysHandle, isWaitReturned]
        omega
      · simp [hc, hz] at hs
  | runLoopEnter =>
    simp only [step, runLoopEnter] at hs
    by_cases hc : w.sleeping = 0
    · simp [hc] at hs
    · simp only [hc, if_false, Option.some.injEq] at hs
      subst hs
      simp [loopExits, startCalls, destroyCount, waitReturns,
        List.countP_append, List.countP_cons, destroysHandle, isWaitReturned]
      omega
  | runLoopExit =>
    simp only [step, runLoopExit] at hs
    by_cases hc : w.running = 0
    · simp [hc] at hs
    · simp only [hc, if_false, Option.some.injEq] at hs
      subst hs
      simp [loopExits, startCalls]
      omega
  | callback data size =>
    simp only [step] at hs
    obtain ⟨h1, h2, h3, h4, h5, h6⟩ := bridge_effect data size w w1 hs
    refine ⟨h1, by omega, by simp [loopExits, startCalls, h2], ?_⟩
    rcases h6 with h6 | ⟨d, n, h6⟩ <;>
      simp [h6, h5, destroyCount, waitReturns, List.countP_append, List.countP_cons,
        destroysHandle, isWaitReturned]

theorem startCalls_cons (a : Action) (as : List Action) :
    startCalls (a :: as) = startCalls [a] + startCalls as := by
  cases a <;> simp [startCalls, Nat.add_comm]

theorem loopExits_cons (a : Action) (as : List Action) :
    loopExits (a :: as) = loopExits [a] + loopExits as := by
  cases a <;> simp [loopExits, Nat.add_comm]

theorem run_counters :
    ∀ (acts : List Action) (w w1 : World), w.h.wg = w.sleeping + w.running →
      run w acts = some w1 →
      w1.h.converter = w.h.converter ∧ w1.h.wg = w1.sleeping + w1.running ∧
      w1.h.wg + loopExits acts = w.h.wg + startCalls acts ∧
      destroyCount w.h.converter w1.trace + waitReturns w.trace + w.closing =
        destroyCount w.h.converter w.trace + waitReturns w1.trace + w1.closing := by
  intro acts
  induction acts with
  | nil =>
    intro w w1 hwg hr
    simp only [run, Option.some.injEq] at hr
    subst hr
    simp [loopExits, startCalls, hwg]
  | cons a as ih =>
    intro w w1 hwg hr
    obtain ⟨w2, hs, hr2⟩ := run_cons w w1 a as hr
    obtain ⟨hc, hwg2, hn, hd⟩ := step_counters w w2 a hs hwg
    obtain ⟨hc1, hwg1, hn1, hd1⟩ := ih w2 w1 hwg2 hr2
    rw [hc] at hd1 hc1
    rw [startCalls_cons a as, loopExits_cons a as]
    refine ⟨hc1, hwg1, by omega, by omega⟩

theorem newWorld_fields (created self : Nat) (frameCB : Option FrameCB) (w0 : World)
    (hnew : newWorld created self frameCB = some w0) :
    created ≠ 0 ∧ w0.h.converter = created ∧ w0.h.wg = 0 ∧ w0.sleeping = 0 ∧ w0.running = 0 ∧
    w0.closing = 0 ∧
    w0.trace = [Event.createPipeline created, Event.setFrameCallback created self] := by
  by_cases hc : created = 0
  · simp [newWorld, NewH264ToJPEGConverter, hc] at hnew
  · by_cases hp : cgoCheckPointer frameCB = true
    · simp only [newWorld, NewH264ToJPEGConverter, hc, hp, if_false, if_true,
        Option.some.injEq] at hnew
      subst hnew
      simp [hc]
    · simp [newWorld, NewH264ToJPEGConverter, hc, hp] at hnew

/-! ## `Close` and the run loops -/

/-- C9: after any execution from a freshly constructed converter, (1) if `Start` was never
called, `Close` returns without blocking and its calls are one `destroy_pipeline` on the
handle followed by the return of `wg.Wait()`; (2) in general the first thing `Close` does is
`destroy_pipeline` on the handle, and every return of `wg.Wait()` so far, together with the
callers still waiting, is matched by a `destroy_pipeline` before it; (3) the counter
`wg.Wait()` waits for is the number of `Start` calls less the run loops that have exited, so
a caller inside `Close` gets past `wg.Wait()` exactly when as many run loops have exited as
`Start` was called, and `Close` returns right away exactly in that case. -/
theorem close_waits_for_run_loops (created self : Nat) (frameCB : Option FrameCB)
    (w0 w : World) (acts : List Action)
    (hnew : newWorld created self frameCB = some w0) (hrun : run w0 acts = some w) :
    (startCalls acts = 0 →
      ∃ w1, Close w = some w1 ∧
        w1.trace = w.trace ++ [Event.destroyPipeline created, Event.waitReturned]) ∧
    (closeDestroy w).trace = w.trace ++ [Event.destroyPipeline created] ∧
    waitReturns w.trace + w.closing = destroyCount created w.trace ∧
    w.h.wg + loopExits acts = startCalls acts ∧
    ((closeWait w).isSome ↔ 0 < w.closing ∧ loopExits acts = startCalls acts) ∧
    ((Close w).isSome ↔ loopExits acts = startCalls acts) := by
  obtain ⟨-, hconv0, hwg0, hsl0, hru0, hcl0, htr0⟩ := newWorld_fields created self frameCB w0 hnew
  obtain ⟨hc, hwg, hn, hd⟩ := run_counters acts w0 w (by omega) hrun
  have hconv : w.h.converter = created := by rw [hc, hconv0]
  have hn1 : w.h.wg + loopExits acts = startCalls acts := by omega
  have hd1 : waitReturns w.trace + w.closing = destroyCount created w.trace := by
    rw [hconv0, htr0] at hd
    simp only [destroyCount, waitReturns] at hd ⊢
    simp [destroysHandle, isWaitReturned] at hd
    omega
  have hpos : w.h.wg = 0 →
      ∃ w1, Close w = some w1 ∧
        w1.trace = w.trace ++ [Event.destroyPipeline created, Event.waitReturned] := by
    intro hz
    simp [Close, closeWait, closeDestroy, hconv, hz]
  have hneg : w.h.wg ≠ 0 → Close w = none := by
    intro hz
    simp [Close, closeWait, closeDestroy, hz]
  refine ⟨?_, by simp [closeDestroy, hconv], hd1, hn1, ?_, ?_⟩
  · intro hs
    exact hpos (by omega)
  · by_cases hcl : w.closing = 0
    · simp [closeWait, hcl]
    · by_cases hz : w.h.wg = 0
      · simp [closeWait, hcl, hz]
        omega
      · simp [closeWait, hcl, hz]
        omega
  · by_cases hz : w.h.wg = 0
    · obtain ⟨w1, h1, -⟩ := hpos hz
      rw [h1]
      simp
      omega
    · rw [hneg hz]
      simp
      omega

/-- C9 on two executions: after one `PushFrame` and no `Start`, `Close` returns at once with
one `destroy_pipeline`; after a `Start` whose run loop has not exited, `Close` blocks. -/
theorem close_waits_witness :
    (∃ w1, Close (PushFrame [1, 2] (exampleWorld none)) = some w1 ∧
      w1.trace = (PushFrame [1, 2] (exampleWorld none)).trace ++
        [Event.destroyPipeline 7, Event.waitReturned]) ∧
    (Close (Start (exampleWorld none))).isSome = false := by
  have h1 := close_waits_for_run_loops 7 100 none (exampleWorld none)
    (PushFrame [1, 2] (exampleWorld none)) [Action.pushFrame [1, 2]] rfl rfl
  have h2 := close_waits_for_run_loops 7 100 none (exampleWorld none)
    (Start (exampleWorld none)) [Action.start] rfl rfl
  refine ⟨h1.1 rfl, ?_⟩
  cases hc : (Close (Start (exampleWorld none))).isSome with
  | false => rfl
  | true => exact absurd (h2.2.2.2.2.2.mp hc) (by decide)

/-! ## Events that must not follow other events -/

theorem noneAfter_of_no_first (first later : Event → Bool) :
    ∀ es : List Event, es.countP first = 0 → noneAfter first later es = true := by
  intro es
  induction es with
  | nil => intro _; rfl
  | cons e es ih =>
    intro hd
    cases he : first e with
    | false =>
      have hes : es.countP first = 0 := by simpa [List.countP_cons, he] using hd
      simp [noneAfter, he, ih hes]
    | true => simp [List.countP_cons, he] at hd

theorem noneAfter_append_of_no_first (first later : Event → Bool) (fs : List Event) :
    ∀ es : List Event, es.countP first = 0 →
      noneAfter first later (es ++ fs) = noneAfter first later fs := by
  intro es
  induction es with
  | nil => intro _; rfl
  | cons e es ih =>
    intro hd
    cases he : first e with
    | false =>
      have hes : es.countP first = 0 := by simpa [List.countP_cons, he] using hd
      simp [noneAfter, he, ih hes]
    | true => simp [List.countP_cons, he] at hd

theorem step_before_close (h : Nat) (w w1 : World) (a : Action) (hs : step w a = some w1)
    (ha : a ≠ Action.closeDestroy) :
    w1.h.converter = w.h.converter ∧ destroyCount h w1.trace = destroyCount h w.trace := by
  cases a with
  | start =>
    simp only [step, Option.some.injEq] at hs
    subst hs
    simp [Start]
  | pushFrame frame =>
    simp only [step, Option.some.injEq] at hs
    subst hs
    obtain ⟨h1, -, -, -, h5⟩ := pushFrame_effect frame w
    rw [h1]
    refine ⟨rfl, ?_⟩
    rcases h5 with h5 | h5 <;>
      simp [h5, destroyCount, List.countP_append, List.countP_cons, destroysHandle]
  | closeDestroy => exact absurd rfl ha
  | closeWait =>
    simp only [step, closeWait] at hs
    by_cases hc : w.closing = 0
    · simp [hc] at hs
    · by_cases hz : w.h.wg = 0
      · simp only [hc, hz, if_true, if_false, Option.some.injEq] at hs
        subst hs
        simp [destroyCount, List.countP_append, List.countP_cons, destroysHandle]
      · simp [hc, hz] at hs
  | runLoopEnter =>
    simp only [step, runLoopEnter] at hs
    by_cases hc : w.sleeping = 0
    · simp [hc] at hs
    · simp only [hc, if_false, Option.some.injEq] at hs
      subst hs
      simp [destroyCount, List.countP_append, List.countP_cons, destroysHandle]
  | runLoopExit =>
    simp only [step, runLoopExit] at hs
    by_cases hc : w.running = 0
    · simp [hc] at hs
    · simp only [hc, if_false, Option.some.injEq] at hs
      subst hs
      simp
  | callback data size =>
    simp only [step] at hs
    obtain ⟨h1, -, -, -, -, h6⟩ := bridge_effect data size w w1 hs
    refine ⟨h1, ?_⟩
    rcases h6 with h6 | ⟨d, n, h6⟩ <;>
      simp [h6, destroyCount, List.countP_append, List.countP_cons, destroysHandle]

theorem step_after_close (h : Nat) (w w1 : World) (a : Action) (hs : step w a = some w1)
    (ha : afterClose a = true) :
    ∃ new, w1.trace = w.trace ++ new ∧
      ∀ e ∈ new, pushesHandle h e = false ∧ destroysHandle h e = false := by
  cases a with
  | start => simp [afterClose] at ha
  | pushFrame frame => simp [afterClose] at ha
  | closeDestroy => simp [afterClose] at ha
  | runLoopEnter =>
    simp only [step, runLoopEnter] at hs
    by_cases hc : w.sleeping = 0
    · simp [hc] at hs
    · simp only [hc, if_false, Option.some.injEq] at hs
      subst hs
      exact ⟨[Event.startPipeline w.h.converter], rfl, by simp [pushesHandle, destroysHandle]⟩
  | closeWait =>
    simp only [step, closeWait] at hs
    by_cases hc : w.closing = 0
    · simp [hc] at hs
    · by_cases hz : w.h.wg = 0
      · simp only [hc, hz, if_true, if_false, Option.some.injEq] at hs
        subst hs
        exact ⟨[Event.waitReturned], rfl, by simp [pushesHandle, destroysHandle]⟩
      · simp [hc, hz] at hs
  | runLoopExit =>
    simp only [step, runLoopExit] at hs
    by_cases hc : w.running = 0
    · simp [hc] at hs
    · simp only [hc, if_false, Option.some.injEq] at hs
      subst hs
      exact ⟨[], by simp, by simp⟩
  | callback data size =>
    simp only [step] at hs
    obtain ⟨-, -, -, -, -, h6⟩ := bridge_effect data size w w1 hs
    rcases h6 with h6 | ⟨d, n, h6⟩
    · exact ⟨[], by simp [h6], by simp⟩
    · exact ⟨[Event.frameCB d n], h6, by simp [pushesHandle, destroysHandle]⟩

theorem run_after_close (h : Nat) :
    ∀ (acts : List Action) (w w1 : World), acts.all afterClose = true → run w acts = some w1 →
      ∃ new, w1.trace = w.trace ++ new ∧
        ∀ e ∈ new, pushesHandle h e = false ∧ destroysHandle h e = false := by
  intro acts
  induction acts with
  | nil =>
    intro w w1 _ hr
    simp only [run, Option.some.injEq] at hr
    subst hr
    exact ⟨[], by simp, by simp⟩
  | cons a as ih =>
    intro w w1 hall hr
    obtain ⟨w2, hs, hr2⟩ := run_cons w w1 a as hr
    rw [List.all_cons, Bool.and_eq_true] at hall
    obtain ⟨n1, ht1, hq1⟩ := step_after_close h w w2 a hs hall.1
    obtain ⟨n2, ht2, hq2⟩ := ih w2 w1 hall.2 hr2
    refine ⟨n1 ++ n2, by rw [ht2, ht1, List.append_assoc], ?_⟩
    intro e he
    rcases List.mem_append.mp he with he | he
    · exact hq1 e he
    · exact hq2 e he

theorem run_closed_last (h : Nat) :
    ∀ (acts : List Action) (w w1 : World), w.h.converter = h → destroyCount h w.trace = 0 →
      closedLast acts = true → run w acts = some w1 →
      noPushAfterDestroy h w1.trace = true ∧ destroyCount h w1.trace ≤ 1 := by
  intro acts
  induction acts with
  | nil =>
    intro w w1 _ hd _ hr
    simp only [run, Option.some.injEq] at hr
    subst hr
    exact ⟨noneAfter_of_no_first _ _ _ hd, by omega⟩
  | cons a as ih =>
    intro w w1 hconv hd hord hr
    obtain ⟨w2, hs, hr2⟩ := run_cons w w1 a as hr
    by_cases ha : a = Action.closeDestroy
    · subst ha
      simp only [closedLast] at hord
      simp only [step, Option.some.injEq] at hs
      subst hs
      obtain ⟨new, ht, hq⟩ := run_after_close h as _ w1 hord hr2
      have hnewd : new.countP (destroysHandle h) = 0 := by
        rw [List.countP_eq_zero]
        intro e he
        simp [(hq e he).2]
      have hnewu : new.all (fun e1 => !pushesHandle h e1) = true := by
        rw [List.all_eq_true]
        intro e he
        simp [(hq e he).1]
      have htr : w1.trace = w.trace ++ (Event.destroyPipeline h :: new) := by
        rw [ht]
        simp [closeDestroy, hconv]
      constructor
      · unfold noPushAfterDestroy
        rw [htr, noneAfter_append_of_no_first _ _ _ _ hd]
        simp only [noneAfter, hnewu, noneAfter_of_no_first _ _ new hnewd]
        simp
      · rw [htr]
        simp only [destroyCount] at hd ⊢
        simp [List.countP_append, List.countP_cons, hd, hnewd, destroysHandle]
    · obtain ⟨hc2, hd2⟩ := step_before_close h w w2 a hs ha
      have hord2 : closedLast as = true := by
        cases a <;> first | exact absurd rfl ha | simpa [closedLast] using hord
      exact ih w2 w1 (by rw [hc2, hconv]) (by rw [hd2, hd]) hord2 hr2

/-- C7, as the claim words it, fails: nothing guards the calls after `Close`.  `Close`, then
`PushFrame`, then `Close` again hands the destroyed handle to `push_buffer` and calls
`destroy_pipeline` a second time. -/
theorem calls_after_close_reach_native :
    (run (exampleWorld none)
        [Action.closeDestroy, Action.closeWait, Action.pushFrame [1], Action.closeDestroy,
         Action.closeWait]).map
      (fun w => (w.trace, noUseAfterDestroy 7 w.trace, destroyCount 7 w.trace)) =
    some ([Event.createPipeline 7, Event.setFrameCallback 7 100, Event.destroyPipeline 7,
           Event.waitReturned, Event.cBytes 1 [1], Event.pushBuffer 7 1 1, Event.free 1,
           Event.destroyPipeline 7, Event.waitReturned], false, 2) := by
  rfl

/-- What the run loop does when `Close` begins during its initial sleep: `Start`, `Close`
destroys the handle, the goroutine wakes up and calls `start_pipeline` on it. -/
theorem run_loop_enters_after_destroy :
    (run (exampleWorld none)
        [Action.start, Action.closeDestroy, Action.runLoopEnter, Action.runLoopExit,
         Action.closeWait]).map (fun w => w.trace) =
    some [Event.createPipeline 7, Event.setFrameCallback 7 100, Event.destroyPipeline 7,
          Event.startPipeline 7, Event.waitReturned] := by
  rfl

/-- C7, amended: in every execution from a freshly constructed converter in which the caller
issues no `Start`, no `PushFrame` and no `Close` once `Close` has begun, the handle is never
passed to `push_buffer` after `destroy_pipeline`, and `destroy_pipeline` is called on it at
most once.  The converter has no guard of its own: in the state reached, also after `Close`,
`PushFrame` with a non-empty buffer calls `push_buffer` on the handle and `Close` calls
`destroy_pipeline` on it. -/
theorem handle_safe_when_closed_last (created self : Nat) (frameCB : Option FrameCB)
    (w0 w : World) (acts : List Action)
    (hnew : newWorld created self frameCB = some w0) (hord : closedLast acts = true)
    (hrun : run w0 acts = some w) :
    noPushAfterDestroy created w.trace = true ∧ destroyCount created w.trace ≤ 1 ∧
    (∀ frame : Bytes, frame ≠ [] →
      (PushFrame frame w).trace = w.trace ++
        [Event.cBytes w.nextPtr frame,
         Event.pushBuffer created w.nextPtr (CInt frame.length), Event.free w.nextPtr]) ∧
    (closeDestroy w).trace = w.trace ++ [Event.destroyPipeline created] := by
  obtain ⟨-, hconv0, hwg0, hsl0, hru0, -, htr0⟩ := newWorld_fields created self frameCB w0 hnew
  have hsafe := run_closed_last created acts w0 w hconv0
    (by rw [htr0]; simp [destroyCount, destroysHandle]) hord hrun
  obtain ⟨hc, -⟩ := run_counters acts w0 w (by omega) hrun
  have hconv : w.h.converter = created := by rw [hc, hconv0]
  refine ⟨hsafe.1, hsafe.2, ?_, by simp [closeDestroy, hconv]⟩
  intro frame hne
  rw [pushFrame_trace w frame hne, hconv]

/-- C7, amended, on the order of `main`: `Start`, the run loop enters `start_pipeline`, two
frames are pushed, `Close` destroys the handle, the run loop exits, `Close` returns. -/
theorem handle_safe_witness :
    ∃ w, run (exampleWorld none) mainSchedule = some w ∧
      noPushAfterDestroy 7 w.trace = true ∧ destroyCount 7 w.trace ≤ 1 := by
  have hsome : (run (exampleWorld none) mainSchedule).isSome = true := rfl
  obtain ⟨w, hw⟩ := Option.isSome_iff_exists.mp hsome
  have h := handle_safe_when_closed_last 7 100 none (exampleWorld none) w mainSchedule
    rfl rfl hw
  exact ⟨w, hw, h.1, h.2.1⟩

/-! ## Handler invocations and the return of `Close` -/

/-- Why the caller's part is needed: a `Start` issued after `Close` has returned puts a run
loop back into `start_pipeline`, and a callback made from it reaches the handler. -/
theorem start_after_close_reopens_callbacks :
    (run (exampleWorld (some acceptAll))
        [Action.closeDestroy, Action.closeWait, Action.start, Action.runLoopEnter,
         Action.callback [1, 2] 2]).map (fun w => noHandlerAfterReturn w.trace) = some false ∧
    callbacksWithinRun (exampleWorld (some acceptAll))
        [Action.closeDestroy, Action.closeWait, Action.start, Action.runLoopEnter,
         Action.callback [1, 2] 2] = true := by
  constructor <;> rfl

theorem insertBack_perm {α : Type} (less : α → α → Bool) (x : α) :
    ∀ l : List α, (insertBack less x l).Perm (x :: l) := by
  intro l
  induction l with
  | nil => exact List.Perm.refl _
  | cons y ys ih =>
    by_cases hl : less x y = true
    · simp only [insertBack, hl, if_true]
      exact ((List.Perm.cons y ih).trans (List.Perm.swap x y ys))
    · simp only [insertBack, hl]
      exact List.Perm.refl _

theorem foldl_insertBack_perm {α : Type} (less : α → α → Bool) :
    ∀ (l sorted : List α),
      (l.foldl (fun sorted x => insertBack less x sorted) sorted).Perm (l ++ sorted) := by
  intro l
  induction l with
  | nil => intro sorted; exact List.Perm.refl _
  | cons x xs ih =>
    intro sorted
    simp only [List.foldl_cons]
    refine (ih (insertBack less x sorted)).trans ?_
    refine (List.Perm.append_left xs (insertBack_perm less x sorted)).trans ?_
    exact List.perm_middle

theorem insertionSort_perm {α : Type} (less : α → α → Bool) (l : List α) :
    (insertionSort less l).Perm l := by
  unfold insertionSort
  refine (List.reverse_perm _).trans ?_
  simpa using foldl_insertBack_perm less l []

theorem insertBack_descending {α : Type} (key : α → Int) (x : α) :
    ∀ l : List α, l.Pairwise (fun a b => key b ≤ key a) →
      (insertBack (fun a b => decide (key a < key b)) x l).Pairwise
        (fun a b => key b ≤ key a) := by
  intro l
  induction l with
  | nil => intro _; simp [insertBack]
  | cons y ys ih =>
    intro hp
    rw [List.pairwise_cons] at hp
    by_cases hl : key x < key y
    · simp only [insertBack, hl, decide_True, if_true]
      rw [List.pairwise_cons]
      refine ⟨?_, ih hp.2⟩
      intro z hz
      have hz1 := (insertBack_perm (fun a b => decide (key a < key b)) x ys).subset hz
      rcases List.mem_cons.mp hz1 with hzx | hzy
      · rw [hzx]; exact le_of_lt hl
      · exact hp.1 z hzy
    · simp only [insertBack, hl, decide_False, Bool.false_eq_true, if_false]
      rw [List.pairwise_cons, List.pairwise_cons]
      refine ⟨?_, hp.1, hp.2⟩
      intro z hz
      rcases List.mem_cons.mp hz with hzy | hzy
      · rw [hzy]; exact le_of_not_lt hl
      · exact le_trans (hp.1 z hzy) (le_of_not_lt hl)

theorem foldl_insertBack_descending {α : Type} (key : α → Int) :
    ∀ (l sorted : List α), sorted.Pairwise (fun a b => key b ≤ key a) →
      (l.foldl (fun sorted x => insertBack (fun a b => decide (key a < key b)) x sorted)
        sorted).Pairwise (fun a b => key b ≤ key a) := by
  intro l
  induction l with
  | nil => intro sorted hs; exact hs
  | cons x xs ih =>
    intro sorted hs
    simp only [List.foldl_cons]
    exact ih _ (insertBack_descending key x sorted hs)

theorem insertionSort_sorted {α : Type} (key : α → Int) (l : List α) :
    (insertionSort (fun a b => decide (key a < key b)) l).Pairwise
      (fun a b => key a ≤ key b) := by
  unfold insertionSort
  rw [List.pairwise_reverse]
  exact foldl_insertBack_descending key l [] List.Pairwise.nil

theorem readAll_of_readable (fs : FileSystem) (folder : GoString) :
    ∀ names : List GoString, (∀ n ∈ names, (fs.readFile (fs.join folder n)).isSome = true) →
      readAll fs folder names =
        Except.ok (names.map (fun n => (fs.readFile (fs.join folder n)).getD [])) := by
  intro names
  induction names with
  | nil => intro _; rfl
  | cons n ns ih =>
    intro hr
    have hn := hr n (List.mem_cons_self _ _)
    have hns := ih (fun m hm => hr m (List.mem_cons_of_mem _ hm))
    obtain ⟨data, hdata⟩ := Option.isSome_iff_exists.mp hn
    simp [readAll, hdata, hns]

theorem parseInt_syntax_zero (s : GoString) (hs : (ParseInt s).2 = some NumError.errSyntax) :
    (ParseInt s).1 = 0 := by
  generalize hr : ParseInt s = r at hs ⊢
  unfold ParseInt at hr
  cases s with
  | nil => subst hr; rfl
  | cons c cs =>
    simp only at hr
    split at hr
    · subst hr; rfl
    · split_ifs at hr <;> (subst hr; simp at hs)

theorem atoi_syntax_zero (s : GoString) (hs : (Atoi s).2 = some NumError.errSyntax) :
    (Atoi s).1 = 0 := by
  by_cases h1 : 0 < s.length ∧ s.length < 19
  · generalize hr : Atoi s = r at hs ⊢
    unfold Atoi at hr
    rw [if_pos h1] at hr
    cases s with
    | nil => subst hr; rfl
    | cons c cs =>
      simp only at hr
      split_ifs at hr
      all_goals first
        | (subst hr; rfl)
        | (split at hr <;> first | (subst hr; rfl) | (subst hr; simp at hs))
  · have h2 : Atoi s = ParseInt s := by
      unfold Atoi
      rw [if_neg h1]
    rw [h2] at hs ⊢
    exact parseInt_syntax_zero s hs

theorem frameKey_eq_claimedKey (name : GoString)
    (hr : (Atoi (TrimSuffix (TrimPrefix name "frame_".toList) ".h264".toList)).2 ≠
      some NumError.errRange) :
    frameKey name = claimedKey name := by
  unfold frameKey claimedKey
  generalize hA : Atoi (TrimSuffix (TrimPrefix name "frame_".toList) ".h264".toList) = r at hr
  have hz := atoi_syntax_zero (TrimSuffix (TrimPrefix name "frame_".toList) ".h264".toList)
  rw [hA] at hz
  obtain ⟨n, err⟩ := r
  cases err with
  | none => rfl
  | some e =>
    cases e with
    | errSyntax => exact hz rfl
    | errRange => exact absurd rfl hr

/-! ## `readH264Frames` -/

/-- C10, as the claim words it, fails on a 20-digit number: `Atoi` reports a range error and
returns the largest `int`, so the file is sorted last, while its key in the words of the claim
(0, the text does not parse) would put it first: the buffers come back with keys 5, 0. -/
theorem frames_not_sorted_by_claimed_key :
    readH264Frames insertionSort exampleFS "./h264/".toList = Except.ok [[5], [9]] ∧
    sortedFrameFiles insertionSort
        ["frame_5.h264".toList, "frame_99999999999999999999.h264".toList] =
      ["frame_5.h264".toList, "frame_99999999999999999999.h264".toList] ∧
    claimedKey "frame_5.h264".toList = 5 ∧
    claimedKey "frame_99999999999999999999.h264".toList = 0 ∧
    frameKey "frame_99999999999999999999.h264".toList = 9223372036854775807 := by
  refine ⟨by rfl, by decide, by decide, by decide, by decide⟩

/-- The same clamp when the overflow comes before a byte that is not a digit: the digit loop
returns at the overflow and never reaches the `x`. -/
theorem atoi_overflow_before_garbage :
    Atoi "99999999999999999999x".toList = (9223372036854775807, some NumError.errRange) := by
  decide

/-- C10, amended: when the directory and every file in it can be read, `readH264Frames` returns
the contents of exactly the files named `frame_..h264`, one buffer per file, in the order
`sort.Slice` leaves the names in, which is non-decreasing in the number `strconv.Atoi` returns
for the text between `frame_` and `.h264`; that number is the one of the claim (the parsed
integer, 0 on a syntax error) except when `Atoi` reports a range error.  `sortSlice` is any
sort that returns a permutation ordered by the `less` function. -/
theorem frames_sorted_by_atoi_key
    (sortSlice : (GoString → GoString → Bool) → List GoString → List GoString)
    (fs : FileSystem) (folder : GoString) (files : List GoString)
    (hperm : ∀ l, (sortSlice frameLess l).Perm l)
    (hsorted : ∀ l, (sortSlice frameLess l).Pairwise (fun a b => frameLess b a = false))
    (hdir : fs.readDir folder = some files)
    (hread : ∀ n ∈ files, (fs.readFile (fs.join folder n)).isSome = true) :
    readH264Frames sortSlice fs folder =
      Except.ok ((sortedFrameFiles sortSlice files).map
        (fun n => (fs.readFile (fs.join folder n)).getD [])) ∧
    (sortedFrameFiles sortSlice files).Perm (files.filter isFrameFile) ∧
    (sortedFrameFiles sortSlice files).Pairwise (fun a b => frameKey a ≤ frameKey b) ∧
    ∀ n, (Atoi (TrimSuffix (TrimPrefix n "frame_".toList) ".h264".toList)).2 ≠
      some NumError.errRange → frameKey n = claimedKey n := by
  have hp : (sortedFrameFiles sortSlice files).Perm (files.filter isFrameFile) := hperm _
  refine ⟨?_, hp, ?_, frameKey_eq_claimedKey⟩
  · unfold readH264Frames
    rw [hdir]
    refine readAll_of_readable fs folder _ ?_
    intro n hn
    exact hread n (List.mem_of_mem_filter (hp.subset hn))
  · refine List.Pairwise.imp ?_ (hsorted (files.filter isFrameFile))
    intro a b hab
    simpa [frameLess] using hab

/-- C10, amended, with the insertion sort of `sort.Slice` on three files out of order. -/
theorem frames_sorted_witness :
    readH264Frames insertionSort orderFS "in".toList = Except.ok [[2], [10], [30]] := by
  have h := frames_sorted_by_atoi_key insertionSort orderFS "in".toList
    ["frame_10.h264".toList, "frame_2.h264".toList, "frame_30.h264".toList, "notes.txt".toList]
    (fun l => insertionSort_perm frameLess l)
    (fun l => by
      have hs := insertionSort_sorted frameKey l
      refine List.Pairwise.imp ?_ hs
      intro a b hab
      simpa [frameLess] using hab)
    rfl
    (fun n _ => by
      simp only [orderFS]
      split_ifs <;> rfl)
  rw [h.1]
  rfl

end H264ToJPEG
